import Mathlib

/-!
Verification of `lib/gui/control_helper.py` (faceswap GUI control helpers).

The Python module is shallowly embedded: tkinter widgets are modelled as
abstract `Region` values (a fresh child widget of a parent region is a
`Region.child` node, so it is provably distinct from its parent), tkinter
variables are modelled by their current value, and the external
`FileHandler` collaborator's return value is passed in as an explicit
argument.  Python strings are modelled as `List Char`, Python `None` /
typed values as dedicated sum types.  Every definition is translated from
the source; fuel-based recursion (with fuel = input length, which every
call supplies) is used where Python iterates over a shrinking string.
-/

set_option maxRecDepth 10000

/-- Abstract model of a tkinter widget: either a root widget or the
`idx`-th fresh child widget created inside a parent widget. -/
inductive Region where
  | base : Nat → Region
  | child : Region → Nat → Region
deriving DecidableEq

/-- State of `AutoFillContainer` (control_helper.py lines 186-231):
`parent`, `columns`, the `_items` counter, the `_idx` cursor and the
`subframes` list. -/
structure AutoFillContainer where
  parent : Region
  columns : Nat
  items : Nat
  idx : Nat
  subframes : List Region
deriving DecidableEq

/-- Translation of `AutoFillContainer.set_subframes` (lines 217-231): for
each `idx in range(columns)`, if `columns != 1` a fresh subframe of the
parent is created, otherwise the parent itself is appended; `_items` is
incremented once per loop iteration.  Returns (subframes, items). -/
def set_subframes (parent : Region) (columns : Nat) : List Region × Nat :=
  ((List.range columns).map (fun idx => if columns ≠ 1 then Region.child parent idx else parent),
   (List.range columns).foldl (fun n _ => n + 1) 0)

/-- Translation of `AutoFillContainer.__init__` (lines 188-196):
`_items = 0`, `_idx = 0`, then `set_subframes` populates the subframes and
bumps `_items` once per created column. -/
def AutoFillContainer.init (parent : Region) (columns : Nat) : AutoFillContainer :=
  { parent := parent
    columns := columns
    items := (set_subframes parent columns).2
    idx := 0
    subframes := (set_subframes parent columns).1 }

/-- Translation of the `AutoFillContainer.subframe` property (lines
203-210): returns `subframes[_idx]` and advances the cursor to
`_idx + 1 if _idx + 1 != columns else 0`.  The `_items` counter is not
touched. -/
def AutoFillContainer.subframe (c : AutoFillContainer) : Region × AutoFillContainer :=
  let frame := c.subframes.getD c.idx c.parent
  let next_idx := if c.idx + 1 ≠ c.columns then c.idx + 1 else 0
  (frame, { c with idx := next_idx })

/-- The container state after `n` successive `subframe` requests. -/
def callsAfter (c : AutoFillContainer) : Nat → AutoFillContainer
  | 0 => c
  | n + 1 => (callsAfter c n).subframe.2

/-- Translation of `ControlPanel.checkbuttons_frame` (lines 175-183): a
fresh `chkbuttons` frame is created inside the group frame and wrapped in
an `AutoFillContainer` with `radio_columns` columns. -/
def checkbuttons_frame (group_frame : Region) (radio_columns : Nat) : AutoFillContainer :=
  AutoFillContainer.init (Region.child group_frame 0) radio_columns

/-- Translation of the checkbox routing in
`ControlBuilder.control_to_checkframe` (line 497): placing one checkbox
asks the checkbutton container for its next `subframe`; nothing increments
`_items`. -/
def route_checkboxes (c : AutoFillContainer) : Nat → AutoFillContainer
  | 0 => c
  | n + 1 => ((route_checkboxes c n).subframe).2

/-- Translation of the pack condition in `ControlPanel.build_panel` line
122: `if group_frame["chkbtns"].items > 0:` the checkbox sub-container is
packed. -/
def chkbtns_pack_condition (c : AutoFillContainer) : Bool :=
  decide (0 < c.items)

/-- Elements of Python `range(start, stop, step)` for a positive `step`,
given the element count: `start, start+step, ...`. -/
def pyRangeAux (start step : Int) : Nat → List Int
  | 0 => []
  | n + 1 => start :: pyRangeAux (start + step) step n

/-- Length of Python `range(start, stop, step)` for a positive `step`:
`max(0, ceil((stop - start) / step))`, computed with floor division as
`(stop - start + step - 1) // step` (Lean's `/` on `Int` is Euclidean
division, which agrees with floor division for a positive divisor). -/
def pyRangeLen (start stop step : Int) : Nat :=
  ((stop - start + step - 1) / step).toNat

/-- Python `range(start, stop, step)` as a list, for positive `step`. -/
def pyRange (start stop step : Int) : List Int :=
  pyRangeAux start step (pyRangeLen start stop step)

/-- Python `min(iterable, key=f)`: the first element attaining the minimal
key; `none` on an empty iterable (Python raises `ValueError`). -/
def pyMin (f : Int → Int) : List Int → Option Int
  | [] => none
  | x :: xs => some (xs.foldl (fun best y => if f y < f best then y else best) x)

/-- Translation of the integer branch of `set_slider_rounding` (lines
19-22): `steps = range(min_max[0], min_max[1] + round_to, round_to)` and
`min(steps, key=lambda x: abs(x - int(float(value))))`; `value` here is
the already-truncated integer raw value. -/
def set_slider_rounding_int (value min_ max_ round_to : Int) : Option Int :=
  pyMin (fun x => |x - value|) (pyRange min_ (max_ + round_to) round_to)

/-- Python `s.replace(pat, rep)` on character lists: leftmost
non-overlapping matches, the replacement is not rescanned.  Fuel-based;
`fuel = s.length` fully processes `s` because every step consumes at
least one character. -/
def pyReplaceAux (pat rep : List Char) : Nat → List Char → List Char
  | 0, s => s
  | _, [] => []
  | fuel + 1, c :: cs =>
    if pat ≠ [] ∧ pat.isPrefixOf (c :: cs) then
      rep ++ pyReplaceAux pat rep fuel ((c :: cs).drop pat.length)
    else
      c :: pyReplaceAux pat rep fuel cs

/-- Python `s.replace(pat, rep)`. -/
def pyReplace (s pat rep : List Char) : List Char :=
  pyReplaceAux pat rep s.length s

/-- Python `s.split(sep)` for a non-empty separator, fuel-based. -/
def pySplitAux (sep : List Char) : Nat → List Char → List (List Char)
  | _, [] => [[]]
  | 0, s => [s]
  | fuel + 1, c :: cs =>
    if sep ≠ [] ∧ sep.isPrefixOf (c :: cs) then
      [] :: pySplitAux sep fuel ((c :: cs).drop sep.length)
    else
      match pySplitAux sep fuel cs with
      | [] => [[c]]
      | h :: t => (c :: h) :: t

/-- Python `s.split(sep)` for a non-empty separator. -/
def pySplitOn (s sep : List Char) : List (List Char) :=
  pySplitAux sep s.length s

/-- Python `s.capitalize()` for ASCII text: first character uppercased,
the remainder lowercased. -/
def pyCapitalize : List Char → List Char
  | [] => []
  | c :: cs => c.toUpper :: cs.map Char.toLower

/-- Python `sep.join(parts)`. -/
def pyJoin (sep : List Char) (parts : List (List Char)) : List Char :=
  List.intercalate sep parts

/-- Translation of `ControlBuilder.format_helptext` (lines 320-332):
`None` help text is returned unchanged; an `R|`-prefixed text has the
marker stripped, `\nL|` turned into `\n - ` and newlines doubled, other
text has `\n\t` turned into `\n  - ` and `%%` collapsed; then every
`". "`-separated segment is `capitalize`d, re-joined with `". "`, and the
raw title plus `" - "` is prefixed. -/
def format_helptext (title : List Char) : Option (List Char) → Option (List Char)
  | none => none
  | some helptext =>
    let body :=
      if ("R|".toList).isPrefixOf helptext then
        pyReplace (pyReplace (helptext.drop 2) "\nL|".toList "\n - ".toList)
          "\n".toList "\n\n".toList
      else
        pyReplace (pyReplace helptext "\n\t".toList "\n  - ".toList) "%%".toList "%".toList
    let joined := pyJoin ". ".toList ((pySplitOn body ". ".toList).map pyCapitalize)
    some (title ++ " - ".toList ++ joined)

/-- Python `s.splitlines()` for text whose only line separator is `\n`:
split on `\n`, dropping the final empty piece produced by a trailing
newline. -/
def pySplitlines (s : List Char) : List (List Char) :=
  if s = [] then []
  else
    let parts := pySplitOn s ['\n']
    if s.getLast? = some '\n' then parts.dropLast else parts

/-- Python `s.split()` (no separator): maximal runs of non-whitespace. -/
def pyWords (s : List Char) : List (List Char) :=
  (s.splitOnP (fun c => c = ' ' ∨ c = '\n' ∨ c = '\t')).filter (· ≠ [])

/-- Translation of `re.sub(r'[^A-Za-z0-9\-]+', '', w.lower())` used on a
bullet line's first word in `ControlBuilder.radio_control` (line 432). -/
def stripNonAlnumHyphen (s : List Char) : List Char :=
  (s.map Char.toLower).filter (fun c => c.isAlphanum ∨ c = '-')

/-- Translation of one entry of the `helpitems` comprehension in
`ControlBuilder.radio_control` (lines 432-435): for a bullet line,
`line.split()[1]` (an `IndexError`, modelled as `.error`, when the bullet
has no word after the dash) keys `" ".join(line.split()[1:])`. -/
def helpitem_of_line (line : List Char) : Except Unit (List Char × List Char) :=
  match pyWords line with
  | _ :: w1 :: rest => .ok (stripNonAlnumHyphen w1, pyJoin [' '] (w1 :: rest))
  | _ => .error ()

/-- Translation of the help-text processing of `ControlBuilder.radio_control`
(lines 426-456): `self.helptext.splitlines()` raises `AttributeError`
(modelled as `.error`) when the formatted help text is `None`; otherwise
the bullet lines (`" - "`-prefixed) are turned into help items and each
choice is looked up by its lowercased name.  Returns, per choice, whether
that choice received its own tooltip. -/
def radio_control_help (formatted : Option (List Char)) (choices : List (List Char)) :
    Except Unit (List (List Char × Bool)) :=
  match formatted with
  | none => .error ()
  | some h => do
    let all_help := pySplitlines h
    let items ← all_help.foldlM
      (fun acc line =>
        if (" - ".toList).isPrefixOf line then do
          let kv ← helpitem_of_line line
          pure (acc ++ [kv])
        else pure acc)
      ([] : List (List Char × List Char))
    pure (choices.map (fun choice =>
      (choice, (items.map (·.1)).contains (choice.map Char.toLower))))

/-- The control kind selected by `ControlBuilder.set_control` (lines
334-347). -/
inductive ControlKind where
  | radio
  | combo
  | checkbutton
  | scale
  | entry
deriving DecidableEq

/-- Help-text consumption of `ControlBuilder.build_one_control` (lines
397-418) per control kind: only the radio branch calls `radio_control`,
which dereferences the formatted help text unconditionally; every other
branch touches the help text only under an `is not None` guard
(`build_control_label` line 392, `build_one_control` line 415) or passes
it unused to the external `Tooltip` collaborator (line 502), so absent
help text never faults there. -/
def build_one_control_help (kind : ControlKind) (formatted : Option (List Char))
    (choices : List (List Char)) : Except Unit Unit :=
  match kind with
  | .radio => (radio_control_help formatted choices).map (fun _ => ())
  | _ => .ok ()

/-- Translation of `FileBrowser.ask_folder` (lines 557-567): the variable
is set only when the external `FileHandler`'s returned string is truthy
(non-empty). -/
def ask_folder (retfile : List Char) (filepath : List Char) : List Char :=
  if retfile ≠ [] then retfile else filepath

/-- Translation of `FileBrowser.ask_load` (lines 569-575). -/
def ask_load (retfile : List Char) (filepath : List Char) : List Char :=
  if retfile ≠ [] then retfile else filepath

/-- Translation of `FileBrowser.ask_load_multi` (lines 577-584): a truthy
(non-empty) result list is serialized as
`" ".join('"' + fname + '"' for fname in filenames)` and written back. -/
def ask_load_multi (retfile : List (List Char)) (filepath : List Char) : List Char :=
  if retfile ≠ [] then
    pyJoin [' '] (retfile.map (fun fname => '"' :: (fname ++ ['"'])))
  else filepath

/-- Translation of `FileBrowser.ask_save` (lines 586-592). -/
def ask_save (retfile : List Char) (filepath : List Char) : List Char :=
  if retfile ≠ [] then retfile else filepath

/-- Translation of `FileBrowser.ask_nothing` (lines 594-597). -/
def ask_nothing (filepath : List Char) : List Char :=
  filepath

/-- Translation of the write-back of `FileBrowser.ask_context` (lines
599-611): the dialog mode resolution is delegated to the external
`FileHandler`; the returned string is written only when truthy. -/
def ask_context (retfile : List Char) (filepath : List Char) : List Char :=
  if retfile ≠ [] then retfile else filepath

/-- One entry of the options mapping as read by
`FileBrowser.set_context_action_option`: its `"opts"` list (whose first
element keys the actions dict) and its `"selected"` bound variable,
modelled by an abstract identifier. -/
structure OptEntry where
  opts : List (List Char)
  selected : Nat
deriving DecidableEq

/-- Python `item["opts"][0]`: `none` models the `IndexError` on an empty
list. -/
def py_opts0 (e : OptEntry) : Option (List Char) :=
  e.opts.head?

/-- Python dict insertion: an existing key keeps its position and gets the
new value, a new key is appended. -/
def dict_insert (k : List Char) (v : Nat) : List (List Char × Nat) → List (List Char × Nat)
  | [] => [(k, v)]
  | (k', v') :: rest => if k' = k then (k', v) :: rest else (k', v') :: dict_insert k v rest

/-- Translation of the dict comprehension
`{item["opts"][0]: item["selected"] for item in options.values()}`
(lines 552-553), built left to right so a duplicated key keeps the last
value; `none` models the `IndexError` on an entry with empty `opts`. -/
def build_actions_from (d : List (List Char × Nat)) :
    List OptEntry → Option (List (List Char × Nat))
  | [] => some d
  | e :: rest =>
    match py_opts0 e with
    | none => none
    | some k => build_actions_from (dict_insert k e.selected d) rest

/-- Python dict lookup `d[k]`: `none` models the `KeyError`. -/
def dict_get (k : List Char) (d : List (List Char × Nat)) : Option Nat :=
  (d.find? (fun p => p.1 == k)).map (·.2)

/-- Translation of `FileBrowser.set_context_action_option` (lines
547-555): an early return (`.inl`, the name left in place) unless the
browser kind list is exactly `["context"]`; otherwise the actions dict is
built from the full options mapping and the configured action-option name
is looked up, caching the found bound variable (`.inr`). -/
def set_context_action_option (browser : List (List Char)) (action_option : List Char)
    (options : List OptEntry) : Except Unit (List Char ⊕ Nat) :=
  if browser ≠ ["context".toList] then .ok (.inl action_option)
  else
    match build_actions_from [] options with
    | none => .error ()
    | some actions =>
      match dict_get action_option actions with
      | none => .error ()
      | some var => .ok (.inr var)

/-- A Python value as stored in a tk variable: `None`, a string, an
integer or a boolean. -/
inductive PyVal where
  | vnone
  | vstr (s : List Char)
  | vint (n : Int)
  | vbool (b : Bool)
deriving DecidableEq

/-- Translation of the value initialization in `ControlBuilder.set_tk_var`
(lines 363-365): `val = default if selected_value is None else
selected_value`, then `val = "" if val is None and blank_nones else val`. -/
def set_tk_var_value (default selected : PyVal) (blank_nones : Bool) : PyVal :=
  let val := match selected with
    | .vnone => default
    | s => s
  match val, blank_nones with
  | .vnone, true => .vstr []
  | v, _ => v

/-- A widget freshly created inside a parent region is never the parent
region itself. -/
theorem region_child_ne (p : Region) : ∀ i, Region.child p i ≠ p := by
  induction p with
  | base n => intro i h; exact Region.noConfusion h
  | child q j ih =>
    intro i h
    injection h with h1 h2
    exact ih j h1

/-- C8: with column count 1 the next-column request returns the parent
region itself and no extra region is created; with column count C > 1
exactly C sub-regions are created, each distinct from the parent and
pairwise distinct. -/
theorem C8_columns_construction (p : Region) (C : Nat) :
    (C = 1 → (AutoFillContainer.init p 1).subframe.1 = p ∧ (set_subframes p 1).1 = [p]) ∧
    (1 < C → (set_subframes p C).1.length = C ∧
      (∀ r ∈ (set_subframes p C).1, r ≠ p) ∧ (set_subframes p C).1.Nodup) := by
  constructor
  · intro _
    exact ⟨rfl, rfl⟩
  · intro hC
    have hne : C ≠ 1 := by omega
    refine ⟨by simp [set_subframes], ?_, ?_⟩
    · intro r hr
      simp [set_subframes, hne] at hr
      obtain ⟨i, hi, rfl⟩ := hr
      exact region_child_ne p i
    · have hinj : Function.Injective (fun idx => Region.child p idx) := by
        intro a b hab
        injection hab
      simp only [set_subframes, hne, ne_eq, not_false_iff, if_true]
      exact (List.nodup_range C).map hinj

theorem C8_columns_construction_witness :
    (AutoFillContainer.init (Region.base 0) 1).subframe.1 = Region.base 0 ∧
    (set_subframes (Region.base 0) 3).1.length = 3 :=
  ⟨((C8_columns_construction (Region.base 0) 1).1 rfl).1,
   ((C8_columns_construction (Region.base 0) 3).2 (by omega)).1⟩

/-- C1 (code bug): a checkbutton container built with the default 4 radio
columns reports `items = 4` before any checkbox is routed into it, because
`set_subframes` increments `_items` once per column; hence the pack
condition of `build_panel` line 122 already holds for a group that
received zero checkbox options, and the checkbox sub-region is packed
anyway. -/
theorem C1_checkbox_frame_packed_without_checkboxes :
    route_checkboxes (checkbuttons_frame (Region.base 0) 4) 0 =
      checkbuttons_frame (Region.base 0) 4 ∧
    (checkbuttons_frame (Region.base 0) 4).items = 4 ∧
    chkbtns_pack_condition (checkbuttons_frame (Region.base 0) 4) = true := by
  refine ⟨rfl, by decide, by decide⟩

/-- C5: for every dialog routine (folder, single-file open, multi-file
open, save, context), an empty (cancelled) result leaves the bound
variable unchanged, and the variable can only change when the external
file handler returned a non-empty result. -/
theorem C5_cancel_is_noop :
    (∀ v, ask_folder [] v = v) ∧ (∀ v, ask_load [] v = v) ∧
    (∀ v, ask_load_multi [] v = v) ∧ (∀ v, ask_save [] v = v) ∧
    (∀ v, ask_context [] v = v) ∧
    (∀ r v, ask_folder r v ≠ v → r ≠ []) ∧
    (∀ r v, ask_load r v ≠ v → r ≠ []) ∧
    (∀ r v, ask_load_multi r v ≠ v → r ≠ []) ∧
    (∀ r v, ask_save r v ≠ v → r ≠ []) ∧
    (∀ r v, ask_context r v ≠ v → r ≠ []) := by
  refine ⟨?_, ?_, ?_, ?_, ?_, ?_, ?_, ?_, ?_, ?_⟩
  · intro v; simp [ask_folder]
  · intro v; simp [ask_load]
  · intro v; simp [ask_load_multi]
  · intro v; simp [ask_save]
  · intro v; simp [ask_context]
  · intro r v h hr; subst hr; exact h (by simp [ask_folder])
  · intro r v h hr; subst hr; exact h (by simp [ask_load])
  · intro r v h hr; subst hr; exact h (by simp [ask_load_multi])
  · intro r v h hr; subst hr; exact h (by simp [ask_save])
  · intro r v h hr; subst hr; exact h (by simp [ask_context])

theorem C5_cancel_is_noop_witness :
    ask_folder [] ['x'] = ['x'] ∧ (['a'] : List Char) ≠ [] :=
  ⟨C5_cancel_is_noop.1 ['x'],
   C5_cancel_is_noop.2.2.2.2.2.1 ['a'] ['x'] (by decide)⟩

/-- C6: a non-empty multi-file result is written back as the space-joined
string of double-quoted paths; in particular the list `["a b.txt",
"c.txt"]` serializes to the string `"a b.txt" "c.txt"` (quotes included),
and for any two paths the serialization is quote-wrap then single-space
join. -/
theorem C6_multi_file_serialization :
    (∀ v, ask_load_multi ["a b.txt".toList, "c.txt".toList] v =
      "\"a b.txt\" \"c.txt\"".toList) ∧
    (∀ a b v, ask_load_multi [a, b] v =
      ('"' :: (a ++ ['"'])) ++ ' ' :: '"' :: (b ++ ['"'])) := by
  constructor
  · intro v
    rfl
  · intro a b v
    simp [ask_load_multi, pyJoin, List.intercalate]

/-- C9: the bound variable's initial value is the selected value when one
is present, else the default; when both are the null marker and the
blank-instead-of-none flag is set, the initial value is the empty
string. -/
theorem C9_initial_value (default selected : PyVal) (b : Bool) :
    (selected ≠ .vnone → set_tk_var_value default selected b = selected) ∧
    (default ≠ .vnone → set_tk_var_value default .vnone b = default) ∧
    (set_tk_var_value .vnone .vnone true = .vstr []) := by
  refine ⟨?_, ?_, rfl⟩
  · intro h
    cases selected with
    | vnone => exact absurd rfl h
    | vstr s => rfl
    | vint n => rfl
    | vbool bb => rfl
  · intro h
    cases default with
    | vnone => exact absurd rfl h
    | vstr s => rfl
    | vint n => rfl
    | vbool bb => rfl

theorem C9_initial_value_witness :
    set_tk_var_value (.vstr ['d']) (.vint 3) true = .vint 3 ∧
    set_tk_var_value (.vstr ['d']) .vnone false = .vstr ['d'] ∧
    set_tk_var_value .vnone .vnone true = .vstr [] :=
  ⟨(C9_initial_value (.vstr ['d']) (.vint 3) true).1 (by decide),
   (C9_initial_value (.vstr ['d']) .vnone false).2.1 (by decide),
   (C9_initial_value .vnone .vnone true).2.2⟩

/-- Successive `subframe` requests change only the cursor: the subframes,
column count and parent of a container are untouched. -/
theorem callsAfter_fields (c : AutoFillContainer) (n : Nat) :
    (callsAfter c n).subframes = c.subframes ∧ (callsAfter c n).columns = c.columns ∧
    (callsAfter c n).parent = c.parent := by
  induction n with
  | zero => exact ⟨rfl, rfl, rfl⟩
  | succ n ih =>
    simpa [callsAfter, AutoFillContainer.subframe] using ih

/-- The cursor of a freshly built container after `n` requests is
`n % C`. -/
theorem callsAfter_idx (p : Region) (C : Nat) (hC : 1 ≤ C) (n : Nat) :
    (callsAfter (AutoFillContainer.init p C) n).idx = n % C := by
  induction n with
  | zero => simp [callsAfter, AutoFillContainer.init]
  | succ n ih =>
    have hcols : (callsAfter (AutoFillContainer.init p C) n).columns = C :=
      (callsAfter_fields (AutoFillContainer.init p C) n).2.1
    have hstep : (callsAfter (AutoFillContainer.init p C) (n + 1)).idx =
        if (callsAfter (AutoFillContainer.init p C) n).idx + 1 ≠ C then
          (callsAfter (AutoFillContainer.init p C) n).idx + 1
        else 0 := by
      simp [callsAfter, AutoFillContainer.subframe, hcols]
    rw [hstep, ih]
    have hlt : n % C < C := Nat.mod_lt n hC
    have key : (n % C + 1) % C = (n + 1) % C := Nat.mod_add_mod n C 1
    by_cases h : n % C + 1 = C
    · rw [if_neg (by omega), ← key, h, Nat.mod_self]
    · rw [if_pos h, ← key]
      exact (Nat.mod_eq_of_lt (by omega)).symm

/-- C2: for a container with C ≥ 1 columns, the (j+1)-th next-column
request returns column j % C (so the first request returns column 0), the
first C requests return the columns in order (each exactly once), and the
(C+1)-th request returns column 0 again. -/
theorem C2_round_robin (p : Region) (C : Nat) (hC : 1 ≤ C) :
    (∀ j, (callsAfter (AutoFillContainer.init p C) j).subframe.1 =
      (AutoFillContainer.init p C).subframes.getD (j % C) p) ∧
    ((List.range C).map (fun j =>
        (callsAfter (AutoFillContainer.init p C) j).subframe.1) =
      (AutoFillContainer.init p C).subframes) ∧
    ((callsAfter (AutoFillContainer.init p C) C).subframe.1 =
      (AutoFillContainer.init p C).subframes.getD 0 p) := by
  have hframe : ∀ j, (callsAfter (AutoFillContainer.init p C) j).subframe.1 =
      (AutoFillContainer.init p C).subframes.getD (j % C) p := by
    intro j
    obtain ⟨hsf, hcols, hpar⟩ := callsAfter_fields (AutoFillContainer.init p C) j
    have hidx := callsAfter_idx p C hC j
    show (callsAfter (AutoFillContainer.init p C) j).subframes.getD
        (callsAfter (AutoFillContainer.init p C) j).idx
        (callsAfter (AutoFillContainer.init p C) j).parent =
      (AutoFillContainer.init p C).subframes.getD (j % C) p
    rw [hsf, hpar, hidx]
    rfl
  have hlen : (AutoFillContainer.init p C).subframes.length = C := by
    simp [AutoFillContainer.init, set_subframes]
  refine ⟨hframe, ?_, ?_⟩
  · refine List.ext_getElem (by simp [hlen]) ?_
    intro j h1 h2
    rw [List.getElem_map, List.getElem_range, hframe j]
    have hjC : j < C := by simpa using h1
    rw [Nat.mod_eq_of_lt hjC, List.getD_eq_getElem _ p (by omega)]
  · rw [hframe C, Nat.mod_self]

theorem C2_round_robin_witness :
    ((List.range 3).map (fun j =>
        (callsAfter (AutoFillContainer.init (Region.base 0) 3) j).subframe.1) =
      (AutoFillContainer.init (Region.base 0) 3).subframes) ∧
    ((callsAfter (AutoFillContainer.init (Region.base 0) 3) 3).subframe.1 =
      (AutoFillContainer.init (Region.base 0) 3).subframes.getD 0 (Region.base 0)) :=
  ⟨(C2_round_robin (Region.base 0) 3 (by decide)).2.1,
   (C2_round_robin (Region.base 0) 3 (by decide)).2.2⟩

/-- C4 counterexample: the claimed formatting of `"R|first.\nL|second
item"` is wrong.  The actual result (title `"opt"`) is
`"opt - First.\n\n - second item"`: the bullet text stays lowercase and no
period is appended, so the claimed bullet `"- Second item."` does not
occur anywhere in the output (the capital-S `"Second item."` is not even
an infix of it). -/
theorem C4_bullet_not_capitalized :
    format_helptext "opt".toList (some "R|first.\nL|second item".toList) =
      some "opt - First.\n\n - second item".toList ∧
    ¬ List.IsInfix "Second item.".toList "opt - First.\n\n - second item".toList := by
  exact ⟨by decide, by decide⟩

/-- C4 (amended): an `R|`-marked help text has the marker stripped, each
`\nL|` bullet marker converted to the bullet `"\n - "`, newlines doubled,
each `". "`-separated segment Python-capitalized (first character
uppercased, the rest lowercased — so text after a bullet's newline is not
re-capitalized and no period is appended), and the raw title plus `" - "`
prefixed; in particular `"R|first.\nL|second item"` with title `"opt"`
formats to the intro line `"opt - First."` followed by a blank line and
the bullet `" - second item"`, and a segment break `". "` does trigger
capitalization, as in the second example. -/
theorem C4_amended_format :
    format_helptext "opt".toList (some "R|first.\nL|second item".toList) =
      some "opt - First.\n\n - second item".toList ∧
    format_helptext "opt".toList (some "R|one. two three.\nL|four five".toList) =
      some "opt - One. Two three.\n\n - four five".toList := by
  exact ⟨by decide, by decide⟩

/-- C10: building a radio group requires non-None help text: the
formatter maps absent raw help text to `None`, and radio construction
dereferences the formatted help unconditionally (modelled `.error`),
while every other control kind accepts absent help text; a radio group
with present help text builds fine. -/
theorem C10_radio_requires_helptext (title : List Char) (choices : List (List Char))
    (kind : ControlKind) (hk : kind ≠ ControlKind.radio) :
    format_helptext title none = none ∧
    build_one_control_help ControlKind.radio (format_helptext title none) choices =
      .error () ∧
    build_one_control_help kind none choices = .ok () ∧
    build_one_control_help ControlKind.radio (some "t - Help.".toList) choices = .ok () := by
  refine ⟨rfl, rfl, ?_, ?_⟩
  · cases kind with
    | radio => exact absurd rfl hk
    | combo => rfl
    | checkbutton => rfl
    | scale => rfl
    | entry => rfl
  · rfl

theorem C10_radio_requires_helptext_witness :
    build_one_control_help ControlKind.radio (format_helptext ['t'] none) [['a']] =
      .error () ∧
    build_one_control_help ControlKind.entry none [['a']] = .ok () :=
  ⟨(C10_radio_requires_helptext ['t'] [['a']] ControlKind.entry (by decide)).2.1,
   (C10_radio_requires_helptext ['t'] [['a']] ControlKind.entry (by decide)).2.2.1⟩

/-- Every element of a step list starting at `start` with a nonnegative
step is at least `start`. -/
theorem pyRangeAux_mem_ge (step : Int) (hstep : 0 ≤ step) :
    ∀ (n : Nat) (start : Int), ∀ z ∈ pyRangeAux start step n, start ≤ z := by
  intro n
  induction n with
  | zero => intro start z hz; simp [pyRangeAux] at hz
  | succ n ih =>
    intro start z hz
    simp only [pyRangeAux, List.mem_cons] at hz
    rcases hz with rfl | hz
    · exact le_refl z
    · have := ih (start + step) z hz
      omega

/-- A step list with a nonnegative step is sorted in weakly increasing
order. -/
theorem pyRangeAux_pairwise (step : Int) (hstep : 0 ≤ step) :
    ∀ (n : Nat) (start : Int), (pyRangeAux start step n).Pairwise (· ≤ ·) := by
  intro n
  induction n with
  | zero => intro start; simp [pyRangeAux]
  | succ n ih =>
    intro start
    simp only [pyRangeAux, List.pairwise_cons]
    refine ⟨?_, ih (start + step)⟩
    intro z hz
    have := pyRangeAux_mem_ge step hstep n (start + step) z hz
    omega

/-- Every element of a step list of length `n + 1` is at most
`start + n * step`. -/
theorem pyRangeAux_mem_le (step : Int) (hstep : 0 ≤ step) :
    ∀ (n : Nat) (start : Int), ∀ z ∈ pyRangeAux start step (n + 1), z ≤ start + n * step := by
  intro n
  induction n with
  | zero =>
    intro start z hz
    simp only [pyRangeAux, List.mem_cons, List.not_mem_nil, or_false] at hz
    simp [hz]
  | succ n ih =>
    intro start z hz
    have hunf : pyRangeAux start step (n + 1 + 1) =
        start :: pyRangeAux (start + step) step (n + 1) := rfl
    rw [hunf] at hz
    rcases List.mem_cons.mp hz with rfl | hz
    · have hnn : (0 : Int) ≤ ((n : Int) + 1) * step := by positivity
      have hcast : ((n + 1 : Nat) : Int) * step = ((n : Int) + 1) * step := by push_cast; ring
      linarith
    · have h2 := ih (start + step) z hz
      have hcast : ((n + 1 : Nat) : Int) * step = (n : Int) * step + step := by push_cast; ring
      linarith

/-- The Python `range` used by integer slider snapping is non-empty when
`min_ ≤ max_` and the step is positive. -/
theorem pyRangeLen_pos (min_ max_ round_to : Int) (hmm : min_ ≤ max_) (hrt : 0 < round_to) :
    0 < pyRangeLen min_ (max_ + round_to) round_to := by
  have h1 : (1 : Int) ≤ (max_ + round_to - min_ + round_to - 1) / round_to := by
    rw [Int.le_ediv_iff_mul_le hrt]
    omega
  unfold pyRangeLen
  omega

/-- Every element of the integer snapping lattice lies between `min_` and
`max_ + round_to`. -/
theorem pyRange_mem_bounds (min_ max_ round_to : Int) (hmm : min_ ≤ max_) (hrt : 0 < round_to) :
    ∀ z ∈ pyRange min_ (max_ + round_to) round_to, min_ ≤ z ∧ z ≤ max_ + round_to := by
  intro z hz
  have hpos : 0 < pyRangeLen min_ (max_ + round_to) round_to :=
    pyRangeLen_pos min_ max_ round_to hmm hrt
  refine ⟨pyRangeAux_mem_ge round_to (le_of_lt hrt) _ min_ z hz, ?_⟩
  obtain ⟨m, hm⟩ : ∃ m, pyRangeLen min_ (max_ + round_to) round_to = m + 1 :=
    ⟨pyRangeLen min_ (max_ + round_to) round_to - 1, by omega⟩
  rw [pyRange, hm] at hz
  have hzle := pyRangeAux_mem_le round_to (le_of_lt hrt) m min_ z hz
  have hediv1 : (1 : Int) ≤ (max_ + round_to - min_ + round_to - 1) / round_to := by
    rw [Int.le_ediv_iff_mul_le hrt]
    omega
  have h0 : ((m + 1 : Nat) : Int) = (max_ + round_to - min_ + round_to - 1) / round_to := by
    have h0a : (m + 1 : Nat) =
        ((max_ + round_to - min_ + round_to - 1) / round_to).toNat := by
      rw [← hm]; rfl
    rw [h0a, Int.toNat_of_nonneg (by omega)]
  have hmul : ((m : Int) + 1) * round_to ≤ max_ + round_to - min_ + round_to - 1 := by
    have := Int.ediv_mul_le (max_ + round_to - min_ + round_to - 1) (ne_of_gt hrt)
    calc ((m : Int) + 1) * round_to
        = (((m + 1 : Nat) : Int)) * round_to := by push_cast; ring
      _ = ((max_ + round_to - min_ + round_to - 1) / round_to) * round_to := by rw [h0]
      _ ≤ max_ + round_to - min_ + round_to - 1 := this
  nlinarith

/-- Python's `min(..., key=f)` fold over a weakly sorted list: the result
is in the list (or is the seed), its key is minimal, and on key ties the
result is the least such element (the first one found, and the list is
sorted). -/
theorem foldl_min_spec (f : Int → Int) :
    ∀ (xs : List Int) (a : Int), (∀ z ∈ xs, a ≤ z) → xs.Pairwise (· ≤ ·) →
    ∃ r, xs.foldl (fun best y => if f y < f best then y else best) a = r ∧
      (r = a ∨ r ∈ xs) ∧ f r ≤ f a ∧ (∀ z ∈ xs, f r ≤ f z) ∧
      (f a = f r → r ≤ a) ∧ (∀ z ∈ xs, f z = f r → r ≤ z) := by
  intro xs
  induction xs with
  | nil =>
    intro a _ _
    exact ⟨a, rfl, Or.inl rfl, le_refl _, by simp, fun _ => le_refl a, by simp⟩
  | cons y ys ih =>
    intro a hmem hpw
    have hay : a ≤ y := hmem y (List.mem_cons_self y ys)
    have hyys : ∀ z ∈ ys, y ≤ z := (List.pairwise_cons.mp hpw).1
    have hpys : ys.Pairwise (· ≤ ·) := (List.pairwise_cons.mp hpw).2
    simp only [List.foldl_cons]
    by_cases hfy : f y < f a
    · rw [if_pos hfy]
      obtain ⟨r, hr, hmem', hle, hall, htie_a, hties⟩ := ih y hyys hpys
      refine ⟨r, hr, ?_, ?_, ?_, ?_, ?_⟩
      · rcases hmem' with rfl | h
        · exact Or.inr (List.mem_cons_self _ _)
        · exact Or.inr (List.mem_cons_of_mem _ h)
      · exact le_of_lt (lt_of_le_of_lt hle hfy)
      · intro z hz
        rcases List.mem_cons.mp hz with rfl | hz'
        · exact hle
        · exact hall z hz'
      · intro hfa
        exact absurd hfa (ne_of_gt (lt_of_le_of_lt hle hfy))
      · intro z hz hfz
        rcases List.mem_cons.mp hz with rfl | hz'
        · exact htie_a hfz
        · exact hties z hz' hfz
    · rw [if_neg hfy]
      push_neg at hfy
      obtain ⟨r, hr, hmem', hle, hall, htie_a, hties⟩ :=
        ih a (fun z hz => hmem z (List.mem_cons_of_mem _ hz)) hpys
      refine ⟨r, hr, ?_, hle, ?_, htie_a, ?_⟩
      · rcases hmem' with rfl | h
        · exact Or.inl rfl
        · exact Or.inr (List.mem_cons_of_mem _ h)
      · intro z hz
        rcases List.mem_cons.mp hz with rfl | hz'
        · exact le_trans hle hfy
        · exact hall z hz'
      · intro z hz hfz
        rcases List.mem_cons.mp hz with rfl | hz'
        · have h1 : f a = f r := le_antisymm (hfz ▸ hfy) hle
          exact le_trans (htie_a h1) hay
        · exact hties z hz' hfz

/-- C3: the integer slider snapping returns an element of the step
lattice `{min_, min_ + round_to, ...}` (all of whose elements lie in
`[min_, max_ + round_to]`) that is closest to the raw value, and on a
distance tie the lower lattice point wins; in particular with bounds
(0, 100) and step 10, the input 34 snaps to 30 and the tied input 35 also
snaps to 30. -/
theorem C3_integer_snapping (value min_ max_ round_to : Int)
    (hmm : min_ ≤ max_) (hrt : 0 < round_to) :
    (∃ r, set_slider_rounding_int value min_ max_ round_to = some r ∧
      r ∈ pyRange min_ (max_ + round_to) round_to ∧
      (∀ y ∈ pyRange min_ (max_ + round_to) round_to, min_ ≤ y ∧ y ≤ max_ + round_to) ∧
      (∀ y ∈ pyRange min_ (max_ + round_to) round_to, |r - value| ≤ |y - value|) ∧
      (∀ y ∈ pyRange min_ (max_ + round_to) round_to, |y - value| = |r - value| → r ≤ y)) ∧
    set_slider_rounding_int 34 0 100 10 = some 30 ∧
    set_slider_rounding_int 35 0 100 10 = some 30 := by
  refine ⟨?_, by decide, by decide⟩
  have hbounds := pyRange_mem_bounds min_ max_ round_to hmm hrt
  have hpos : 0 < pyRangeLen min_ (max_ + round_to) round_to :=
    pyRangeLen_pos min_ max_ round_to hmm hrt
  obtain ⟨m, hm⟩ : ∃ m, pyRangeLen min_ (max_ + round_to) round_to = m + 1 :=
    ⟨pyRangeLen min_ (max_ + round_to) round_to - 1, by omega⟩
  have hsteps : pyRange min_ (max_ + round_to) round_to =
      min_ :: pyRangeAux (min_ + round_to) round_to m := by
    rw [pyRange, hm]; rfl
  have hmemtail : ∀ z ∈ pyRangeAux (min_ + round_to) round_to m, min_ ≤ z := by
    intro z hz
    have := pyRangeAux_mem_ge round_to (le_of_lt hrt) m (min_ + round_to) z hz
    omega
  have hpwtail : (pyRangeAux (min_ + round_to) round_to m).Pairwise (· ≤ ·) :=
    pyRangeAux_pairwise round_to (le_of_lt hrt) m (min_ + round_to)
  obtain ⟨r, hr, hmem', hle, hall, htie_a, hties⟩ :=
    foldl_min_spec (fun x => |x - value|) (pyRangeAux (min_ + round_to) round_to m)
      min_ hmemtail hpwtail
  refine ⟨r, ?_, ?_, hbounds, ?_, ?_⟩
  · rw [set_slider_rounding_int, hsteps]
    simp only [pyMin]
    rw [hr]
  · rw [hsteps]
    rcases hmem' with rfl | h
    · exact List.mem_cons_self _ _
    · exact List.mem_cons_of_mem _ h
  · intro y hy
    rw [hsteps] at hy
    rcases List.mem_cons.mp hy with rfl | hy'
    · exact hle
    · exact hall y hy'
  · intro y hy hfy
    rw [hsteps] at hy
    rcases List.mem_cons.mp hy with rfl | hy'
    · exact htie_a hfy
    · exact hties y hy' hfy

theorem C3_integer_snapping_witness :
    set_slider_rounding_int 34 0 100 10 = some 30 ∧
    set_slider_rounding_int 35 0 100 10 = some 30 :=
  (C3_integer_snapping 35 0 100 10 (by decide) (by decide)).2

/-- Looking a key up in a dict after a cons inspects the head first. -/
theorem dict_get_cons (k a : List Char) (b : Nat) (d : List (List Char × Nat)) :
    dict_get k ((a, b) :: d) = if a = k then some b else dict_get k d := by
  by_cases h : a = k
  · simp [dict_get, List.find?_cons_of_pos, h]
  · simp [dict_get, List.find?_cons_of_neg, h]

/-- Looking up `k` after inserting `k'` finds the inserted value exactly
when `k = k'`, and is otherwise unaffected. -/
theorem dict_get_insert (k k' : List Char) (v : Nat) (d : List (List Char × Nat)) :
    dict_get k (dict_insert k' v d) = if k = k' then some v else dict_get k d := by
  induction d with
  | nil =>
    simp only [dict_insert]
    rw [dict_get_cons]
    by_cases h : k = k'
    · simp [h]
    · rw [if_neg (fun hh => h hh.symm), if_neg h]
  | cons p rest ih =>
    obtain ⟨a, b⟩ := p
    simp only [dict_insert]
    by_cases ha : a = k'
    · rw [if_pos ha, dict_get_cons, dict_get_cons]
      by_cases h : a = k
      · rw [if_pos h]
        subst h
        rw [if_pos ha]
      · rw [if_neg h]
        have hk : ¬ k = k' := fun hh => h (by rw [ha, ← hh])
        rw [if_neg hk, if_neg h]
    · rw [if_neg ha, dict_get_cons, dict_get_cons]
      by_cases h : a = k
      · rw [if_pos h, if_pos h]
        have hk : ¬ k = k' := fun hh => ha (by rw [h, hh])
        rw [if_neg hk]
      · rw [if_neg h, if_neg h, ih]

/-- Building the actions dict from the options and then looking up a key
finds the `selected` bound variable of the last option whose first
`opts` entry is that key (Python dict comprehension semantics: later
duplicates overwrite), provided every option has a first `opts` entry. -/
theorem build_actions_get (k : List Char) :
    ∀ (options : List OptEntry) (d : List (List Char × Nat)),
    (∀ e ∈ options, ∃ k', py_opts0 e = some k') →
    ∃ D, build_actions_from d options = some D ∧
      dict_get k D =
        (match (options.filter (fun e => py_opts0 e == some k)).getLast? with
         | none => dict_get k d
         | some e => some e.selected) := by
  intro options
  induction options with
  | nil => intro d _; exact ⟨d, rfl, rfl⟩
  | cons e rest ih =>
    intro d hall
    obtain ⟨k', hk'⟩ := hall e (List.mem_cons_self _ _)
    have hrest : ∀ e' ∈ rest, ∃ k'', py_opts0 e' = some k'' :=
      fun e' he' => hall e' (List.mem_cons_of_mem _ he')
    obtain ⟨D, hD, hget⟩ := ih (dict_insert k' e.selected d) hrest
    refine ⟨D, ?_, ?_⟩
    · simp only [build_actions_from, hk']
      exact hD
    · rw [hget, List.filter_cons]
      by_cases hm : (py_opts0 e == some k) = true
      · have hkk : k' = k := by
          have h1 : py_opts0 e = some k := beq_iff_eq.mp hm
          rw [hk'] at h1
          exact Option.some.inj h1
        rw [if_pos hm]
        cases hfl : rest.filter (fun e' => py_opts0 e' == some k) with
        | nil =>
          simp only [List.getLast?_singleton]
          rw [dict_get_insert, if_pos hkk.symm]
          rfl
        | cons q qs =>
          rw [List.getLast?_cons_cons, List.getLast?_cons]
      · have hkk : ¬ k = k' := by
          intro hh
          exact hm (beq_iff_eq.mpr (by rw [hk', hh]))
        rw [if_neg hm]
        cases hfl : rest.filter (fun e' => py_opts0 e' == some k) with
        | nil =>
          simp only [List.getLast?_nil]
          rw [dict_get_insert, if_neg hkk]
        | cons q qs => rfl

/-- C7: `set_context_action_option` is a no-op (the configured name is
left in place) unless the browser kind list is exactly `["context"]`;
when it is, the bound variable keyed in the full options mapping by the
configured action-option name (the unique option whose first `opts` entry
is that name) is looked up and cached. -/
theorem C7_context_action_option (browser : List (List Char)) (action_option : List Char)
    (options : List OptEntry) (e : OptEntry) :
    (browser ≠ ["context".toList] →
      set_context_action_option browser action_option options = .ok (.inl action_option)) ∧
    (browser = ["context".toList] →
      (∀ e' ∈ options, ∃ k', py_opts0 e' = some k') →
      options.filter (fun e' => py_opts0 e' == some action_option) = [e] →
      set_context_action_option browser action_option options = .ok (.inr e.selected)) := by
  constructor
  · intro h
    rw [set_context_action_option, if_pos h]
  · intro hb hall hfilter
    obtain ⟨D, hD, hget⟩ := build_actions_get action_option options [] hall
    have hsel : dict_get action_option D = some e.selected := by
      rw [hget, hfilter]
      simp [List.getLast?_singleton]
    rw [set_context_action_option, if_neg (by simp [hb]), hD]
    simp [hsel]

theorem C7_context_action_option_witness :
    set_context_action_option [['s']] ['a'] [] = .ok (.inl ['a']) ∧
    set_context_action_option ["context".toList] ['a'] [⟨[['a']], 7⟩] = .ok (.inr 7) :=
  ⟨(C7_context_action_option [['s']] ['a'] [] ⟨[['a']], 7⟩).1 (by decide),
   (C7_context_action_option ["context".toList] ['a'] [⟨[['a']], 7⟩] ⟨[['a']], 7⟩).2 rfl
     (by
       intro e' he'
       rw [List.mem_singleton] at he'
       subst he'
       exact ⟨['a'], rfl⟩)
     (by decide)⟩
